import Mathlib

/-!
Shallow embedding of the HTML5 Space Invaders source (src/unnamed/part_001)
for verification of its specification claims.

JS strings are modelled as `List Char`; JS numbers appearing in the claims
are integers (or the special value NaN), modelled by `JSNum`.
-/

namespace SpaceInvaders

/-- The decimal digit character for `n < 10`, as produced by the host's
number-to-string conversion. -/
def digitChar (n : ℕ) : Char := Char.ofNat (48 + n)

/-- Decimal digit list of a natural number, most significant first — a model
of the host's `Number.prototype.toString` for non-negative integers
(no leading zeroes; `0 ↦ "0"`). -/
def natDigits (n : ℕ) : List Char :=
  if _h : n < 10 then [digitChar n]
  else natDigits (n / 10) ++ [digitChar (n % 10)]
  decreasing_by exact Nat.div_lt_self (by omega) (by omega)

/-- Decimal character list of an integer — a model of the host's
`Number.prototype.toString` for integer values (minus sign for negatives). -/
def intDigits (i : ℤ) : List Char :=
  if i < 0 then '-' :: natDigits i.natAbs else natDigits i.natAbs

/-- A JS number value as it matters here: either the special NaN value or an
integer value. Both have `typeof == 'number'` in JS. -/
inductive JSNum : Type
  | nan : JSNum
  | int (i : ℤ) : JSNum
deriving DecidableEq

/-- `score.toString()` on a JS number. `NaN.toString() == "NaN"`. -/
def numToChars : JSNum → List Char
  | JSNum.nan => ['N', 'a', 'N']
  | JSNum.int i => intDigits i

/-- A JS value: a number, or any of the non-number kinds of values
(`typeof` of which is not `'number'`). -/
inductive JSVal : Type
  | num (v : JSNum) : JSVal
  | str (s : List Char) : JSVal
  | boolean (b : Bool) : JSVal
  | undef : JSVal
  | null : JSVal
  | obj : JSVal
deriving DecidableEq

/-- `SpaceInvaders.toScoreString` (src/unnamed/part_001 lines 12–23):

    var result = "NaN";
    if (typeof score == 'number') {
      result = score.toString();
      var difference = (4 - result.length);
      if (difference >= 0) { result = "0000" + result; }
      result = result.substring(result.length - 4);
    }
    return result;

The `difference` is computed in JS number arithmetic, modelled in `ℤ`;
`substring(result.length - 4)` drops the leading `result.length - 4`
characters (for a number input the start index is never negative). -/
def toScoreString (score : JSVal) : List Char :=
  match score with
  | JSVal.num v =>
    let result := numToChars v
    let result :=
      if (0 : ℤ) ≤ 4 - (result.length : ℤ) then
        ['0', '0', '0', '0'] ++ result
      else result
    result.drop (result.length - 4)
  | _ => ['N', 'a', 'N']

/-- One step of decimal parsing: shift the accumulator and add the digit
value of the character. -/
def parseStep (a : ℕ) (c : Char) : ℕ := a * 10 + (c.toNat - 48)

/-- Parsing a character list as a decimal natural number (the reverse
direction used to state the round-trip property). -/
def parseNat (s : List Char) : ℕ :=
  s.foldl parseStep 0

lemma digitChar_toNat : ∀ n, n < 10 → (digitChar n).toNat = 48 + n := by decide

lemma natDigits_length_pos (n : ℕ) : 1 ≤ (natDigits n).length := by
  rw [natDigits]
  split <;> simp

lemma natDigits_foldl (n : ℕ) : ∀ a : ℕ,
    (natDigits n).foldl parseStep a = a * 10 ^ (natDigits n).length + n := by
  induction n using Nat.strong_induction_on with
  | _ n ih =>
    intro a
    rw [natDigits]
    split
    · next h =>
      simp [parseStep, digitChar_toNat n h]
    · next h =>
      have hlt : n / 10 < n := Nat.div_lt_self (by omega) (by omega)
      rw [List.foldl_append, ih (n / 10) hlt a, List.length_append]
      have hm : (48 : ℕ) + n % 10 - 48 = n % 10 := by omega
      simp only [List.foldl_cons, List.foldl_nil, List.length_cons,
        List.length_nil, parseStep, digitChar_toNat (n % 10) (Nat.mod_lt n (by omega)), hm]
      have hdm : n / 10 * 10 + n % 10 = n := by omega
      calc (a * 10 ^ (natDigits (n / 10)).length + n / 10) * 10 + n % 10
          = a * (10 ^ (natDigits (n / 10)).length * 10) + (n / 10 * 10 + n % 10) := by ring
        _ = a * 10 ^ ((natDigits (n / 10)).length + (0 + 1)) + n := by
            rw [hdm, pow_succ]

lemma natDigits_length_le (n : ℕ) : ∀ k : ℕ, 1 ≤ k → n < 10 ^ k →
    (natDigits n).length ≤ k := by
  induction n using Nat.strong_induction_on with
  | _ n ih =>
    intro k hk hn
    rw [natDigits]
    split
    · next h => simpa using hk
    · next h =>
      have h10 : 10 ≤ n := by omega
      have hk2 : 2 ≤ k := by
        by_contra hc
        have hk1 : k = 1 := by omega
        rw [hk1, pow_one] at hn
        omega
      have hlt : n / 10 < n := Nat.div_lt_self (by omega) (by omega)
      have hdiv : n / 10 < 10 ^ (k - 1) := by
        rw [Nat.div_lt_iff_lt_mul (by norm_num : (0 : ℕ) < 10)]
        have : 10 ^ (k - 1) * 10 = 10 ^ k := by
          rw [← pow_succ]
          congr 1
          omega
        omega
      have := ih (n / 10) hlt (k - 1) (by omega) hdiv
      rw [List.length_append]
      simp only [List.length_cons, List.length_nil]
      omega

lemma foldl_zeros : ∀ l : List Char, (∀ c ∈ l, c = '0') →
    l.foldl parseStep 0 = 0 := by
  intro l
  induction l with
  | nil => intro _; rfl
  | cons c t iht =>
    intro h
    have hc : c = '0' := h c (List.mem_cons_self c t)
    have hstep : parseStep 0 c = 0 := by
      rw [hc]
      rfl
    simpa [hstep] using iht (fun d hd => h d (List.mem_cons_of_mem c hd))

lemma intDigits_natCast (n : ℕ) : intDigits (n : ℤ) = natDigits n := by
  simp [intDigits]

/-- The pad-then-truncate tail of `toScoreString` always yields exactly four
characters, whatever character list the number rendered to. -/
lemma pad_truncate_length (r : List Char) :
    ((if (0 : ℤ) ≤ 4 - (r.length : ℤ) then ['0', '0', '0', '0'] ++ r else r).drop
      ((if (0 : ℤ) ≤ 4 - (r.length : ℤ) then ['0', '0', '0', '0'] ++ r
        else r).length - 4)).length = 4 := by
  split
  · next h =>
    simp only [List.length_drop, List.length_append, List.length_cons,
      List.length_nil]
    omega
  · next h =>
    simp only [List.length_drop]
    omega

/-- C7: for every non-negative integer `n < 10000`, `toScoreString(n)` has
length exactly 4, consists of the decimal digits of `n` left-padded with
`'0'`, and parses back to `n`; for longer numbers the last four digits are
kept (`12 ↦ "0012"`, `0 ↦ "0000"`, `99999 ↦ "9999"`). -/
theorem toScoreString_roundtrip :
    (∀ n : ℕ, n < 10000 →
      (toScoreString (JSVal.num (JSNum.int (n : ℤ)))).length = 4 ∧
      parseNat (toScoreString (JSVal.num (JSNum.int (n : ℤ)))) = n) ∧
    toScoreString (JSVal.num (JSNum.int 12)) = ['0', '0', '1', '2'] ∧
    toScoreString (JSVal.num (JSNum.int 0)) = ['0', '0', '0', '0'] ∧
    toScoreString (JSVal.num (JSNum.int 99999)) = ['9', '9', '9', '9'] := by
  refine ⟨?_, ?_, ?_, ?_⟩
  · intro n hn
    have hL4 : (natDigits n).length ≤ 4 :=
      natDigits_length_le n 4 (by norm_num) (by norm_num; omega)
    have hL1 : 1 ≤ (natDigits n).length := natDigits_length_pos n
    have hcond : (0 : ℤ) ≤ 4 - ((natDigits n).length : ℤ) := by
      omega
    simp only [toScoreString, numToChars, intDigits_natCast, if_pos hcond]
    have hdropn : (['0', '0', '0', '0'] ++ natDigits n).length - 4 =
        (natDigits n).length := by
      simp only [List.length_append, List.length_cons, List.length_nil]
      omega
    rw [hdropn, List.drop_append_of_le_length (by simpa using hL4)]
    constructor
    · simp only [List.length_append, List.length_drop, List.length_cons,
        List.length_nil]
      omega
    · have hzeros : ∀ c ∈ List.drop (natDigits n).length ['0', '0', '0', '0'],
          c = '0' := by
        intro c hc
        have := List.mem_of_mem_drop hc
        simpa using this
      unfold parseNat
      rw [List.foldl_append, foldl_zeros _ hzeros, natDigits_foldl n 0]
      simp
  · simp [toScoreString, numToChars, intDigits, natDigits, digitChar]
  · simp [toScoreString, numToChars, intDigits, natDigits, digitChar]
  · simp [toScoreString, numToChars, intDigits, natDigits, digitChar]

theorem toScoreString_roundtrip_witness :
    (toScoreString (JSVal.num (JSNum.int ((12 : ℕ) : ℤ)))).length = 4 ∧
    parseNat (toScoreString (JSVal.num (JSNum.int ((12 : ℕ) : ℤ)))) = 12 :=
  toScoreString_roundtrip.1 12 (by norm_num)

/-- C9: any value that is not of numeric type is rendered as the literal
`"NaN"`; the function is total (defined for every `JSVal`). -/
theorem toScoreString_nonNumeric :
    ∀ x : JSVal, (∀ v : JSNum, x ≠ JSVal.num v) →
      toScoreString x = ['N', 'a', 'N'] := by
  intro x hx
  cases x with
  | num v => exact absurd rfl (hx v)
  | str s => rfl
  | boolean b => rfl
  | undef => rfl
  | null => rfl
  | obj => rfl

theorem toScoreString_nonNumeric_witness :
    toScoreString JSVal.undef = ['N', 'a', 'N'] :=
  toScoreString_nonNumeric JSVal.undef (fun _ h => JSVal.noConfusion h)

/-- C10: every numeric input yields a string of exactly four characters,
including the numeric NaN value (rendered `"0NaN"`, not the bare sentinel)
and negative integers, whose minus sign is part of the padded output
(`-5 ↦ "00-5"`). -/
theorem toScoreString_numeric_width :
    (∀ v : JSNum, (toScoreString (JSVal.num v)).length = 4) ∧
    toScoreString (JSVal.num JSNum.nan) = ['0', 'N', 'a', 'N'] ∧
    toScoreString (JSVal.num (JSNum.int (-5))) = ['0', '0', '-', '5'] := by
  refine ⟨?_, ?_, ?_⟩
  · intro v
    simp only [toScoreString]
    exact pad_truncate_length (numToChars v)
  · simp [toScoreString, numToChars]
  · simp [toScoreString, numToChars, intDigits, natDigits, digitChar]

/-! ## TextEntity blink state

The blink-relevant private fields of `SpaceInvaders.TextEntity`
(src/unnamed/part_001 lines 310–408). All numeric fields are JS numbers,
here integers. -/

structure TextEntity where
  visible : Bool
  blinks : ℤ
  blinkTimer : ℤ
  blinkCount : ℤ
  blinkFrequency : ℤ
deriving DecidableEq

/-- `TextEntity.update(dt)` (lines 351–363):

    if (blinks > 0 || blinks == -1) {
      blinkTimer--;
      if (blinkTimer == 0) {
        this.setVisible(!this.isVisible());
        blinks--;
        blinks = Math.max(blinks, -1);
        if (blinks > 0 || blinks == -1) { blinkTimer = blinkFrequency; }
      }
    }

The `dt` argument is unused by the source. -/
def TextEntity.update (e : TextEntity) : TextEntity :=
  if e.blinks > 0 ∨ e.blinks = -1 then
    let t := e.blinkTimer - 1
    if t = 0 then
      let b := max (e.blinks - 1) (-1)
      { e with
        visible := !e.visible,
        blinks := b,
        blinkTimer := if b > 0 ∨ b = -1 then e.blinkFrequency else t }
    else
      { e with blinkTimer := t }
  else e

/-- `TextEntity.blink()` (lines 385–391):

    if (this.isVisible() || blinks > 0) {
      this.setVisible(true);
      blinks = blinkCount;
      blinkTimer = blinkFrequency;
    }
-/
def TextEntity.blink (e : TextEntity) : TextEntity :=
  if e.visible = true ∨ e.blinks > 0 then
    { e with
      visible := true,
      blinks := e.blinkCount,
      blinkTimer := e.blinkFrequency }
  else e

/-- C3 counterexample: an entity that is invisible and mid-infinite-blink
(`blinks = -1`) is NOT restarted by `blink()` — the call leaves every field
unchanged (in particular it stays invisible), contrary to the claim that such
an entity has its blink restarted. -/
theorem blink_hidden_infinite_noop :
    TextEntity.blink ⟨false, -1, 3, 20, 5⟩ = ⟨false, -1, 3, 20, 5⟩ ∧
    (⟨false, -1, 3, 20, 5⟩ : TextEntity).visible = false ∧
    (⟨false, -1, 3, 20, 5⟩ : TextEntity).blinks = -1 := by
  refine ⟨?_, rfl, rfl⟩
  decide

/-- C3 (amended): `blink()` starts (or restarts) a blink if and only if the
entity is visible or has `blinks > 0`; when it starts it sets
`blinks := blinkCount`, `blinkTimer := blinkFrequency` and forces
`visible := true`; otherwise — the entity is hidden and `blinks ≤ 0`,
which includes a hidden entity mid-infinite-blink (`blinks = -1`) — it
leaves all fields unchanged. -/
theorem blink_spec (e : TextEntity) :
    (e.visible = true ∨ e.blinks > 0 →
      TextEntity.blink e =
        { e with
          visible := true,
          blinks := e.blinkCount,
          blinkTimer := e.blinkFrequency }) ∧
    (¬(e.visible = true ∨ e.blinks > 0) → TextEntity.blink e = e) := by
  constructor
  · intro h
    simp only [TextEntity.blink, if_pos h]
  · intro h
    simp only [TextEntity.blink, if_neg h]

theorem blink_spec_witness :
    TextEntity.blink ⟨true, 0, 0, 3, 5⟩ = ⟨true, 3, 5, 3, 5⟩ :=
  (blink_spec ⟨true, 0, 0, 3, 5⟩).1 (Or.inl rfl)

lemma update_fixed_of_blinks_zero (e : TextEntity) (h : e.blinks = 0) :
    TextEntity.update e = e := by
  simp only [TextEntity.update, h]
  norm_num

lemma iterate_fixed_of_update_fixed (e : TextEntity)
    (h : TextEntity.update e = e) : ∀ j : ℕ, TextEntity.update^[j] e = e := by
  intro j
  induction j with
  | zero => rfl
  | succ j ihj => rw [Function.iterate_succ_apply', ihj, h]

/-- C5: after `blink()` on a visible entity with `blinkCount = 3` and blink
interval 5, visibility toggles exactly at updates 5, 10 and 15 (constant in
between), the blink counter reaches 0 after the third toggle and stays
non-negative, and no update after the 15th changes the entity again. -/
theorem blink_three_toggles :
    (∀ k, k < 5 →
      (TextEntity.update^[k] (TextEntity.blink ⟨true, 0, 0, 3, 5⟩)).visible = true) ∧
    (∀ k, k < 10 → 5 ≤ k →
      (TextEntity.update^[k] (TextEntity.blink ⟨true, 0, 0, 3, 5⟩)).visible = false) ∧
    (∀ k, k < 15 → 10 ≤ k →
      (TextEntity.update^[k] (TextEntity.blink ⟨true, 0, 0, 3, 5⟩)).visible = true) ∧
    (TextEntity.update^[15] (TextEntity.blink ⟨true, 0, 0, 3, 5⟩)).blinks = 0 ∧
    (∀ k, 0 ≤ (TextEntity.update^[k] (TextEntity.blink ⟨true, 0, 0, 3, 5⟩)).blinks) ∧
    (∀ k, 15 ≤ k →
      TextEntity.update^[k] (TextEntity.blink ⟨true, 0, 0, 3, 5⟩) =
      TextEntity.update^[15] (TextEntity.blink ⟨true, 0, 0, 3, 5⟩)) := by
  have h15 : TextEntity.update^[15] (TextEntity.blink ⟨true, 0, 0, 3, 5⟩) =
      ⟨false, 0, 0, 3, 5⟩ := by decide
  have hfix : ∀ j : ℕ, TextEntity.update^[j] (⟨false, 0, 0, 3, 5⟩ : TextEntity) =
      ⟨false, 0, 0, 3, 5⟩ :=
    iterate_fixed_of_update_fixed _ (update_fixed_of_blinks_zero _ rfl)
  have htail : ∀ k, 15 ≤ k →
      TextEntity.update^[k] (TextEntity.blink ⟨true, 0, 0, 3, 5⟩) =
      TextEntity.update^[15] (TextEntity.blink ⟨true, 0, 0, 3, 5⟩) := by
    intro k hk
    obtain ⟨j, rfl⟩ : ∃ j, k = j + 15 := ⟨k - 15, by omega⟩
    rw [Function.iterate_add_apply, h15, hfix j]
  refine ⟨by decide, by decide, by decide, by rw [h15], ?_, htail⟩
  intro k
  by_cases hk : k < 15
  · revert hk
    revert k
    decide
  · rw [htail k (by omega), h15]

theorem blink_three_toggles_witness :
    (TextEntity.update^[4] (TextEntity.blink ⟨true, 0, 0, 3, 5⟩)).visible = true ∧
    (TextEntity.update^[5] (TextEntity.blink ⟨true, 0, 0, 3, 5⟩)).visible = false ∧
    (TextEntity.update^[12] (TextEntity.blink ⟨true, 0, 0, 3, 5⟩)).visible = true ∧
    TextEntity.update^[17] (TextEntity.blink ⟨true, 0, 0, 3, 5⟩) =
      TextEntity.update^[15] (TextEntity.blink ⟨true, 0, 0, 3, 5⟩) :=
  ⟨blink_three_toggles.1 4 (by norm_num),
   blink_three_toggles.2.1 5 (by norm_num) (by norm_num),
   blink_three_toggles.2.2.1 12 (by norm_num) (by norm_num),
   blink_three_toggles.2.2.2.2.2 17 (by norm_num)⟩

lemma update_blinks_neg_one (e : TextEntity) (h : e.blinks = -1) :
    (TextEntity.update e).blinks = -1 := by
  simp only [TextEntity.update, h]
  norm_num
  split <;> simp

lemma iterate_blinks_neg_one (e : TextEntity) (h : e.blinks = -1) :
    ∀ k : ℕ, (TextEntity.update^[k] e).blinks = -1 := by
  intro k
  induction k with
  | zero => exact h
  | succ k ihk =>
    rw [Function.iterate_succ_apply']
    exact update_blinks_neg_one _ ihk

/-- While `blinks = -1`, the timer just counts down as long as it has not
reached zero: `r` updates with `r < blinkTimer` subtract `r` from the timer
and change nothing else. -/
lemma countdown_neg_one : ∀ (r : ℕ) (v : Bool) (t c f : ℤ), (r : ℤ) < t →
    TextEntity.update^[r] ⟨v, -1, t, c, f⟩ = ⟨v, -1, t - r, c, f⟩ := by
  intro r
  induction r with
  | zero =>
    intro v t c f h
    simp
  | succ r ih =>
    intro v t c f h
    have hr : (r : ℤ) + 1 < t := by push_cast at h; omega
    have ht : ¬(t - 1 = 0) := by omega
    have hupd : TextEntity.update ⟨v, -1, t, c, f⟩ = ⟨v, -1, t - 1, c, f⟩ := by
      simp [TextEntity.update, ht]
    rw [Function.iterate_succ_apply, hupd, ih v (t - 1) c f (by omega),
      show t - 1 - (r : ℤ) = t - ((r + 1 : ℕ) : ℤ) from by push_cast; ring]

/-- One full blink interval: from a freshly reset timer, `m + 1` updates
toggle the visibility once and return the timer to the frequency. -/
lemma period_neg_one (m : ℕ) (v : Bool) (c : ℤ) :
    TextEntity.update^[m + 1] ⟨v, -1, (m : ℤ) + 1, c, (m : ℤ) + 1⟩ =
      ⟨!v, -1, (m : ℤ) + 1, c, (m : ℤ) + 1⟩ := by
  have hc := countdown_neg_one m v ((m : ℤ) + 1) c ((m : ℤ) + 1) (by omega)
  rw [show m + 1 = 1 + m from by omega, Function.iterate_add_apply, hc]
  have h1 : (m : ℤ) + 1 - (m : ℤ) = 1 := by ring
  rw [h1, Function.iterate_one]
  simp only [TextEntity.update]
  norm_num

/-- Iterating whole periods: after `j` full blink intervals the visibility
has toggled `j` times and the rest of the state is back where it started. -/
lemma periods_neg_one (m : ℕ) (c : ℤ) : ∀ (j : ℕ) (v : Bool),
    TextEntity.update^[(m + 1) * j] ⟨v, -1, (m : ℤ) + 1, c, (m : ℤ) + 1⟩ =
      ⟨if j % 2 = 0 then v else !v, -1, (m : ℤ) + 1, c, (m : ℤ) + 1⟩ := by
  intro j
  induction j with
  | zero =>
    intro v
    simp
  | succ j ihj =>
    intro v
    have hmul : (m + 1) * (j + 1) = (m + 1) + (m + 1) * j := by ring
    rw [hmul, Function.iterate_add_apply, ihj v, period_neg_one]
    by_cases hj : j % 2 = 0
    · have hj1 : ¬((j + 1) % 2 = 0) := by omega
      simp [hj, hj1]
    · have hj1 : (j + 1) % 2 = 0 := by omega
      simp [hj, hj1]

/-- C6: for an entity with `blinkCount = -1` (frequency `m + 1 ≥ 1`) that was
visible when `blink()` was called, the blink counter never goes below `-1`
under any number of updates, and visibility keeps toggling every `m + 1`
updates indefinitely: within interval `j` (offset `r ≤ m`) the entity is
visible exactly when `j` is even. -/
theorem infinite_blink (m : ℕ) (e : TextEntity)
    (hv : e.visible = true) (hc : e.blinkCount = -1)
    (hf : e.blinkFrequency = (m : ℤ) + 1) :
    (∀ k : ℕ, -1 ≤ (TextEntity.update^[k] (TextEntity.blink e)).blinks) ∧
    (∀ j r : ℕ, r ≤ m →
      ((TextEntity.update^[(m + 1) * j + r] (TextEntity.blink e)).visible = true ↔
        j % 2 = 0)) := by
  obtain ⟨v, b, t, c, f⟩ := e
  simp only at hv hc hf
  subst hv
  subst hc
  subst hf
  have hblink : TextEntity.blink ⟨true, b, t, -1, (m : ℤ) + 1⟩ =
      ⟨true, -1, (m : ℤ) + 1, -1, (m : ℤ) + 1⟩ := by
    simp [TextEntity.blink]
  rw [hblink]
  constructor
  · intro k
    rw [iterate_blinks_neg_one _ rfl k]
  · intro j r hr
    rw [add_comm ((m + 1) * j) r, Function.iterate_add_apply,
      periods_neg_one m (-1) j true, countdown_neg_one r _ _ _ _ (by omega)]
    by_cases hj : j % 2 = 0 <;> simp [hj]

theorem infinite_blink_witness :
    -1 ≤ (TextEntity.update^[7] (TextEntity.blink ⟨true, 0, 0, -1, 5⟩)).blinks ∧
    ((TextEntity.update^[5] (TextEntity.blink ⟨true, 0, 0, -1, 5⟩)).visible = true ↔
      1 % 2 = 0) :=
  ⟨(infinite_blink 4 ⟨true, 0, 0, -1, 5⟩ rfl rfl (by norm_num)).1 7,
   (infinite_blink 4 ⟨true, 0, 0, -1, 5⟩ rfl rfl (by norm_num)).2 1 0 (by norm_num)⟩

/-! ## Scene state machine

`SpaceInvaders.Scene.setState` (src/unnamed/part_001 lines 705–718):

    if (state) { state.exit(); }
    state = newState;
    if (state) { state.enter(); }

The live state is `Option σ` (`undefined` is `none`); the observable behaviour
of a call is the ordered list of events it performs. -/

/-- An observable event of `setState`: an `exit()` hook call, the assignment
of the current-state variable, or an `enter()` hook call. -/
inductive Ev (σ : Type) : Type
  | exitEv (s : σ)
  | assign (s : Option σ)
  | enterEv (s : σ)
deriving DecidableEq

/-- The ordered event list of one `setState(newState)` call. -/
def setStateEvents {σ : Type} (cur next : Option σ) : List (Ev σ) :=
  (match cur with
   | some s => [Ev.exitEv s]
   | none => []) ++
  [Ev.assign next] ++
  (match next with
   | some s => [Ev.enterEv s]
   | none => [])

/-- Folding a sequence of `setState` calls from a current state: the
concatenated event trace and the final current state. -/
def setStateRun {σ : Type} (cur : Option σ) : List (Option σ) → List (Ev σ) × Option σ
  | [] => ([], cur)
  | next :: rest =>
    let r := setStateRun next rest
    (setStateEvents cur next ++ r.1, r.2)

/-- The number of calls in the sequence at whose moment a state was live
(each such call replaces that live state). -/
def replacedCount {σ : Type} (cur : Option σ) : List (Option σ) → ℕ
  | [] => 0
  | next :: rest => (if cur.isSome then 1 else 0) + replacedCount next rest

/-- Recognizer for `exit()` events. -/
def isExit {σ : Type} : Ev σ → Bool
  | Ev.exitEv _ => true
  | _ => false

/-- `entersPreceded prev trace` holds when every `enter(s)` event in `trace`
is immediately preceded by the assignment of `s` as the current state
(`prev` is the event just before the trace, if any). -/
def entersPreceded {σ : Type} [DecidableEq σ] (prev : Option (Ev σ)) :
    List (Ev σ) → Bool
  | [] => true
  | e :: rest =>
    (match e with
     | Ev.enterEv s => decide (prev = some (Ev.assign (some s)))
     | _ => true) && entersPreceded (some e) rest

lemma countP_exits_setStateEvents {σ : Type} (cur next : Option σ) :
    (setStateEvents cur next).countP (fun e => isExit e) =
      if cur.isSome then 1 else 0 := by
  cases cur <;> cases next <;> simp [setStateEvents, isExit, List.countP_cons]

lemma countP_exits_run {σ : Type} :
    ∀ (calls : List (Option σ)) (cur : Option σ),
      ((setStateRun cur calls).1.countP (fun e => isExit e)) =
        replacedCount cur calls := by
  intro calls
  induction calls with
  | nil =>
    intro cur
    rfl
  | cons next rest ih =>
    intro cur
    simp only [setStateRun, replacedCount]
    rw [List.countP_append, ih next, countP_exits_setStateEvents]

lemma entersPreceded_run {σ : Type} [DecidableEq σ] :
    ∀ (calls : List (Option σ)) (cur : Option σ) (prev : Option (Ev σ)),
      entersPreceded prev (setStateRun cur calls).1 = true := by
  intro calls
  induction calls with
  | nil =>
    intro cur prev
    rfl
  | cons next rest ih =>
    intro cur prev
    simp only [setStateRun]
    cases cur <;> cases next <;>
      simp [setStateEvents, entersPreceded, ih]

/-- C2: for any sequence of `setState` calls, (1) the number of `exit()`
calls equals the number of previously-live states replaced, (2) every
`enter()` call is immediately preceded by the assignment of that state as
current, (3) a call while a state `s` is live and a state `t` is requested
performs exactly `exit s`, `assign t`, `enter t` in that order — in
particular (4) a re-entrant transition to the already-active state still
runs both hooks. -/
theorem setState_protocol {σ : Type} [DecidableEq σ] :
    (∀ (cur : Option σ) (calls : List (Option σ)),
      ((setStateRun cur calls).1.countP (fun e => isExit e)) =
        replacedCount cur calls) ∧
    (∀ (cur : Option σ) (calls : List (Option σ)) (prev : Option (Ev σ)),
      entersPreceded prev (setStateRun cur calls).1 = true) ∧
    (∀ s t : σ, setStateEvents (some s) (some t) =
      [Ev.exitEv s, Ev.assign (some t), Ev.enterEv t]) ∧
    (∀ s : σ, setStateEvents (some s) (some s) =
      [Ev.exitEv s, Ev.assign (some s), Ev.enterEv s]) :=
  ⟨fun cur calls => countP_exits_run calls cur,
   fun cur calls prev => entersPreceded_run calls cur prev,
   fun _ _ => rfl,
   fun _ => rfl⟩

/-! ## Game initialization

`SpaceInvaders.Game.init` (lines 112–145) and `Game.start` (lines 189–193).
The host environment (DOM) is modelled by whether the canvas element and its
2D context can be acquired. -/

/-- The host environment: availability of the canvas element and of its 2D
drawing context. -/
structure Browser where
  canvasAvailable : Bool
  ctxAvailable : Bool
deriving DecidableEq

/-- The initialization-relevant state of `Game`: the `initialized` flag and
which resources have been acquired (canvas, context, and the scene together
with its sprite sheet and initial welcome state). -/
structure GameState where
  initialized : Bool
  hasCanvas : Bool
  hasCtx : Bool
  sceneReady : Bool
deriving DecidableEq

/-- `Game.init()`: refuses when already initialized; acquires the canvas and
the 2D context, failing (returning `false`) when either is unavailable; on
success builds the scene, assigns the welcome state, sets `initialized` and
returns `true`. -/
def Game.init (b : Browser) (g : GameState) : Bool × GameState :=
  if g.initialized = true then
    (false, g)
  else
    let g1 := { g with hasCanvas := b.canvasAvailable }
    if b.canvasAvailable = false then
      (false, g1)
    else
      let g2 := { g1 with hasCtx := b.ctxAvailable }
      if b.ctxAvailable = false then
        (false, g2)
      else
        (true, { g2 with sceneReady := true, initialized := true })

/-- `Game.start()`: `if (this.init()) { this.run(0); }` — the boolean records
whether the run loop was entered. -/
def Game.start (b : Browser) (g : GameState) : Bool × GameState :=
  let r := Game.init b g
  if r.1 = true then (true, r.2) else (false, r.2)

/-- C8: `init` returns false and performs no work when already initialized,
returns false when the canvas or its 2D context cannot be acquired, succeeds
(setting the initialized flag) exactly when not yet initialized and both
acquisitions succeed; `start` enters the run loop iff `init` returned true. -/
theorem init_once (b : Browser) (g : GameState) :
    (g.initialized = true → Game.init b g = (false, g)) ∧
    (b.canvasAvailable = false ∨ b.ctxAvailable = false →
      (Game.init b g).1 = false) ∧
    ((Game.init b g).1 = true ↔
      g.initialized = false ∧ b.canvasAvailable = true ∧ b.ctxAvailable = true) ∧
    ((Game.init b g).2.initialized = true ↔
      g.initialized = true ∨ (Game.init b g).1 = true) ∧
    (Game.start b g).1 = (Game.init b g).1 := by
  obtain ⟨cv, cx⟩ := b
  obtain ⟨gi, gc, gx, gs⟩ := g
  rcases gi <;> rcases cv <;> rcases cx <;>
    simp [Game.init, Game.start]

theorem init_once_witness :
    Game.init ⟨true, true⟩ ⟨true, false, false, false⟩ =
      (false, ⟨true, false, false, false⟩) ∧
    (Game.init ⟨true, true⟩ ⟨false, false, false, false⟩).1 = true ∧
    (Game.init ⟨false, true⟩ ⟨false, false, false, false⟩).1 = false :=
  ⟨(init_once ⟨true, true⟩ ⟨true, false, false, false⟩).1 rfl,
   (init_once ⟨true, true⟩ ⟨false, false, false, false⟩).2.2.1.mpr ⟨rfl, rfl, rfl⟩,
   (init_once ⟨false, true⟩ ⟨false, false, false, false⟩).2.1 (Or.inl rfl)⟩

/-! ## Clock / run loop

`SpaceInvaders.Game.run` (src/unnamed/part_001 lines 159–179):

    var dt = (tickTime - previousTickTime);
    previousTickTime = tickTime;
    if (dt < 100) {
      deltaAccumulator += dt;
      while (deltaAccumulator >= FPS) {
        scene.update(FPS);
        deltaAccumulator -= FPS;
      }
      ctx.clearRect(0, 0, canvas.width, canvas.height);
      scene.render(ctx);
    }
    requestAnimationFrame(this.run.bind(this));

Timestamps and time deltas are modelled by exact rationals; `FPS` is the
constant `1000.0 / 60.0` from `Game`. -/

/-- The fixed step size `FPS = 1000.0 / 60.0` of `Game`. -/
def FPS : ℚ := 1000 / 60

lemma FPS_pos : (0 : ℚ) < FPS := by norm_num [FPS]

/-- The clock fields of `Game`: `previousTickTime` and `deltaAccumulator`. -/
structure ClockState where
  previousTickTime : ℚ
  deltaAccumulator : ℚ
deriving DecidableEq

/-- The `while (deltaAccumulator >= FPS)` drain loop: returns the final
accumulator and how many `scene.update(FPS)` calls were made. -/
def drainLoop (a : ℚ) : ℚ × ℕ :=
  if FPS ≤ a then
    let r := drainLoop (a - FPS)
    (r.1, r.2 + 1)
  else (a, 0)
  termination_by (⌊a / FPS⌋).toNat
  decreasing_by
    have h1 : (1 : ℚ) ≤ a / FPS := (one_le_div FPS_pos).mpr (by assumption)
    have hfl1 : (1 : ℤ) ≤ ⌊a / FPS⌋ := Int.le_floor.mpr (by exact_mod_cast h1)
    have heq : (a - FPS) / FPS = a / FPS - 1 := by
      rw [sub_div, div_self (ne_of_gt FPS_pos)]
    have hfl : ⌊(a - FPS) / FPS⌋ = ⌊a / FPS⌋ - 1 := by
      rw [heq, show (1 : ℚ) = ((1 : ℤ) : ℚ) from rfl, Int.floor_sub_int]
    omega

/-- The outcome of one `run(tickTime)` callback: the new clock state, the
number of `scene.update(FPS)` calls executed, and whether the draw surface
was cleared and redrawn. -/
structure RunResult where
  state : ClockState
  steps : ℕ
  rendered : Bool
deriving DecidableEq

/-- One `Game.run(tickTime)` callback. -/
def Game.run (s : ClockState) (tickTime : ℚ) : RunResult :=
  let dt := tickTime - s.previousTickTime
  if dt < 100 then
    let d := drainLoop (s.deltaAccumulator + dt)
    { state := ⟨tickTime, d.1⟩, steps := d.2, rendered := true }
  else
    { state := ⟨tickTime, s.deltaAccumulator⟩, steps := 0, rendered := false }

/-- A run of consecutive `run` callbacks: total step count and final state. -/
def runSeq (s : ClockState) : List ℚ → ClockState × ℕ
  | [] => (s, 0)
  | t :: ts =>
    let r := Game.run s t
    let rest := runSeq r.state ts
    (rest.1, r.steps + rest.2)

/-- Callback timestamps with constant spacing `S` after time `t0`. -/
def constSpaced (t0 S : ℚ) : ℕ → List ℚ
  | 0 => []
  | k + 1 => (t0 + S) :: constSpaced (t0 + S) S k

/-- C4: a callback whose delta is at least 100 executes zero simulation
steps, neither clears nor redraws the surface, and leaves the accumulator
untouched. -/
theorem run_stutter_guard (s : ClockState) (t : ℚ)
    (h : 100 ≤ t - s.previousTickTime) :
    (Game.run s t).steps = 0 ∧ (Game.run s t).rendered = false ∧
    (Game.run s t).state.deltaAccumulator = s.deltaAccumulator := by
  have hn : ¬(t - s.previousTickTime < 100) := not_lt.mpr h
  simp [Game.run, hn]

theorem run_stutter_guard_witness :
    (Game.run ⟨0, 7⟩ 150).steps = 0 ∧ (Game.run ⟨0, 7⟩ 150).rendered = false ∧
    (Game.run ⟨0, 7⟩ 150).state.deltaAccumulator =
      (⟨0, 7⟩ : ClockState).deltaAccumulator :=
  run_stutter_guard ⟨0, 7⟩ 150 (by norm_num)

lemma floor_div_FPS_zero (a : ℚ) (h0 : 0 ≤ a) (h1 : a < FPS) :
    ⌊a / FPS⌋ = 0 := by
  have hlo : 0 ≤ a / FPS := div_nonneg h0 (le_of_lt FPS_pos)
  have hhi : a / FPS < 1 := (div_lt_one FPS_pos).mpr h1
  have hge : 0 ≤ ⌊a / FPS⌋ := Int.floor_nonneg.mpr hlo
  have hlt1 : ⌊a / FPS⌋ < 1 := Int.floor_lt.mpr (by exact_mod_cast hhi)
  omega

lemma drainLoop_spec : ∀ (n : ℕ) (a : ℚ), 0 ≤ a → (⌊a / FPS⌋).toNat ≤ n →
    drainLoop a = (a - ((⌊a / FPS⌋ : ℤ) : ℚ) * FPS, (⌊a / FPS⌋).toNat) := by
  intro n
  induction n with
  | zero =>
    intro a ha hn
    have h0 : 0 ≤ ⌊a / FPS⌋ := Int.floor_nonneg.mpr (div_nonneg ha (le_of_lt FPS_pos))
    have hfl : ⌊a / FPS⌋ = 0 := by omega
    have hlt : ¬ FPS ≤ a := by
      intro hc
      have h1 : (1 : ℚ) ≤ a / FPS := (one_le_div FPS_pos).mpr hc
      have : (1 : ℤ) ≤ ⌊a / FPS⌋ := Int.le_floor.mpr (by exact_mod_cast h1)
      omega
    rw [drainLoop, if_neg hlt, hfl]
    norm_num
  | succ n ih =>
    intro a ha hn
    by_cases hc : FPS ≤ a
    · have ha' : 0 ≤ a - FPS := by linarith
      have heq : (a - FPS) / FPS = a / FPS - 1 := by
        rw [sub_div, div_self (ne_of_gt FPS_pos)]
      have hfl : ⌊(a - FPS) / FPS⌋ = ⌊a / FPS⌋ - 1 := by
        rw [heq, show (1 : ℚ) = ((1 : ℤ) : ℚ) from rfl, Int.floor_sub_int]
      have h1 : (1 : ℤ) ≤ ⌊a / FPS⌋ :=
        Int.le_floor.mpr (by exact_mod_cast (one_le_div FPS_pos).mpr hc)
      rw [drainLoop, if_pos hc, ih (a - FPS) ha' (by omega)]
      simp only [Prod.mk.injEq]
      constructor
      · rw [hfl]
        push_cast
        ring
      · rw [hfl]
        omega
    · have h0 : 0 ≤ ⌊a / FPS⌋ := Int.floor_nonneg.mpr (div_nonneg ha (le_of_lt FPS_pos))
      have hfl : ⌊a / FPS⌋ = 0 := floor_div_FPS_zero a ha (not_le.mp hc)
      rw [drainLoop, if_neg hc, hfl]
      norm_num

lemma drainLoop_eq (a : ℚ) (ha : 0 ≤ a) :
    drainLoop a = (a - ((⌊a / FPS⌋ : ℤ) : ℚ) * FPS, (⌊a / FPS⌋).toNat) :=
  drainLoop_spec (⌊a / FPS⌋).toNat a ha le_rfl

lemma acc_rem_bounds (x : ℚ) :
    0 ≤ x - ((⌊x / FPS⌋ : ℤ) : ℚ) * FPS ∧ x - ((⌊x / FPS⌋ : ℤ) : ℚ) * FPS < FPS := by
  have h1 : ((⌊x / FPS⌋ : ℤ) : ℚ) ≤ x / FPS := Int.floor_le _
  have h2 : x / FPS < ((⌊x / FPS⌋ : ℤ) : ℚ) + 1 := Int.lt_floor_add_one _
  have hx : x / FPS * FPS = x := div_mul_cancel₀ x (ne_of_gt FPS_pos)
  constructor
  · have := mul_le_mul_of_nonneg_right h1 (le_of_lt FPS_pos)
    rw [hx] at this
    linarith
  · have := mul_lt_mul_of_pos_right h2 FPS_pos
    rw [hx] at this
    linarith

lemma floor_sub_mul_FPS (x : ℚ) (m : ℤ) :
    ⌊(x - (m : ℚ) * FPS) / FPS⌋ = ⌊x / FPS⌋ - m := by
  have heq : (x - (m : ℚ) * FPS) / FPS = x / FPS - (m : ℚ) := by
    rw [sub_div, mul_div_assoc, div_self (ne_of_gt FPS_pos), mul_one]
  rw [heq, Int.floor_sub_int]

/-- The invariant of the fixed-timestep loop over constantly spaced
callbacks: starting at time `t0` with accumulator `a ∈ [0, FPS)`, after `K`
callbacks the total number of `scene.update(FPS)` calls is
`⌊(K·S + a)/FPS⌋` and the accumulator is the remainder. -/
lemma runSeq_constSpaced (S : ℚ) (hS0 : 0 ≤ S) (hS : S < 100) :
    ∀ (K : ℕ) (t0 a : ℚ), 0 ≤ a → a < FPS →
      runSeq ⟨t0, a⟩ (constSpaced t0 S K) =
        (⟨t0 + (K : ℚ) * S,
          ((K : ℚ) * S + a) - ((⌊((K : ℚ) * S + a) / FPS⌋ : ℤ) : ℚ) * FPS⟩,
         (⌊((K : ℚ) * S + a) / FPS⌋).toNat) := by
  intro K
  induction K with
  | zero =>
    intro t0 a ha haF
    have hfl : ⌊a / FPS⌋ = 0 := floor_div_FPS_zero a ha haF
    simp [runSeq, constSpaced, hfl]
  | succ K ihK =>
    intro t0 a ha haF
    have hdt : (t0 + S) - t0 = S := by ring
    have hrun : Game.run ⟨t0, a⟩ (t0 + S) =
        { state := ⟨t0 + S,
            (a + S) - ((⌊(a + S) / FPS⌋ : ℤ) : ℚ) * FPS⟩,
          steps := (⌊(a + S) / FPS⌋).toNat, rendered := true } := by
      simp only [Game.run, hdt]
      rw [if_pos (by linarith : S < 100), drainLoop_eq (a + S) (by linarith)]
    have hb := acc_rem_bounds (a + S)
    have hrest := ihK (t0 + S)
      ((a + S) - ((⌊(a + S) / FPS⌋ : ℤ) : ℚ) * FPS) hb.1 hb.2
    simp only [constSpaced, runSeq, hrun, hrest]
    have hm0 : (0 : ℤ) ≤ ⌊(a + S) / FPS⌋ :=
      Int.floor_nonneg.mpr (div_nonneg (by linarith) (le_of_lt FPS_pos))
    have hshift : (K : ℚ) * S + ((a + S) - ((⌊(a + S) / FPS⌋ : ℤ) : ℚ) * FPS) =
        (((K : ℕ) + 1 : ℚ) * S + a) - ((⌊(a + S) / FPS⌋ : ℤ) : ℚ) * FPS := by
      ring
    have hfl2 : ⌊((K : ℚ) * S + ((a + S) - ((⌊(a + S) / FPS⌋ : ℤ) : ℚ) * FPS)) / FPS⌋ =
        ⌊(((K : ℕ) + 1 : ℚ) * S + a) / FPS⌋ - ⌊(a + S) / FPS⌋ := by
      rw [hshift, floor_sub_mul_FPS]
    have hm1 : (0 : ℤ) ≤ ⌊(((K : ℕ) + 1 : ℚ) * S + a) / FPS⌋ - ⌊(a + S) / FPS⌋ := by
      rw [← hfl2]
      exact Int.floor_nonneg.mpr (div_nonneg (by nlinarith [hb.1, hb.2])
        (le_of_lt FPS_pos))
    simp only [Prod.mk.injEq, ClockState.mk.injEq]
    refine ⟨⟨by push_cast; ring, ?_⟩, ?_⟩
    · rw [hfl2]
      push_cast
      ring
    · rw [hfl2]
      push_cast
      omega

/-- C1: over `K` `run` callbacks whose timestamps are spaced by a constant
`0 ≤ S < 100`, starting from `previousTickTime = 0` with accumulator
(leftover) `a0 ∈ [0, FPS)`, the total number of `scene.update(FPS)` calls is
exactly `⌊(K·S + a0)/FPS⌋`, and the final accumulator is the remainder
`K·S + a0 − steps·FPS ∈ [0, FPS)` — total simulated time tracks elapsed wall
time to within one step and never drifts unboundedly. -/
theorem run_fixed_timestep (K : ℕ) (S a0 : ℚ)
    (hS0 : 0 ≤ S) (hS : S < 100) (ha0 : 0 ≤ a0) (ha0F : a0 < FPS) :
    (runSeq ⟨0, a0⟩ (constSpaced 0 S K)).2 =
      (⌊((K : ℚ) * S + a0) / FPS⌋).toNat ∧
    (runSeq ⟨0, a0⟩ (constSpaced 0 S K)).1.deltaAccumulator =
      ((K : ℚ) * S + a0) - ((⌊((K : ℚ) * S + a0) / FPS⌋ : ℤ) : ℚ) * FPS ∧
    0 ≤ (runSeq ⟨0, a0⟩ (constSpaced 0 S K)).1.deltaAccumulator ∧
    (runSeq ⟨0, a0⟩ (constSpaced 0 S K)).1.deltaAccumulator < FPS := by
  have h := runSeq_constSpaced S hS0 hS K 0 a0 ha0 ha0F
  rw [h]
  have hb := acc_rem_bounds ((K : ℚ) * S + a0)
  exact ⟨rfl, rfl, hb.1, hb.2⟩

theorem run_fixed_timestep_witness :
    (runSeq ⟨0, 0⟩ (constSpaced 0 20 3)).2 =
      (⌊(((3 : ℕ) : ℚ) * 20 + 0) / FPS⌋).toNat :=
  (run_fixed_timestep 3 20 0 (by norm_num) (by norm_num) le_rfl FPS_pos).1

end SpaceInvaders
